import Mathlib

/-!
Verification of the gnosis-ahp browser bridge against its specification.

The definitions below are a shallow embedding of the bridge's JavaScript
sources: the background broker (`ahp-bridge-extension/background.js`), the
Claude content script (`content.js`), the ChatGPT content script
(`chatgpt_content.js`).  Network requests, URL parsing and DOM queries are
platform facilities and are passed in as explicit oracles; everything the
repository's own code decides is written out.
-/

namespace AhpBridge

/-- Truthiness of a possibly-absent string field, as JavaScript sees it:
`undefined` and the empty string are falsy. -/
def truthyS : Option String → Bool
  | none => false
  | some s => !(s == "")

/-- Truthiness of a possibly-absent numeric field: `undefined` and `0` are falsy. -/
def truthyN : Option Nat → Bool
  | none => false
  | some n => !(n == 0)

/-- JavaScript `a || b` for a possibly-absent string `a`: falls back when `a`
is `undefined` or the empty string. -/
def orFallback : Option String → String → String
  | none, d => d
  | some s, d => if s == "" then d else s

/-- The `ahpSettings` object held in `chrome.storage.sync` (written by popup.js).
Each field may be absent. -/
structure Settings where
  serverType : Option String
  customServerUrl : Option String
  email : Option String
  preSharedKey : Option String
deriving DecidableEq

/-- The `chrome.storage.session` contents used by the broker:
`bearerToken` and `tokenExpiry`. -/
structure SessionState where
  bearerToken : Option String
  tokenExpiry : Option Nat
deriving DecidableEq

/-- The cached-token guard from background.js:
`sessionData.bearerToken && sessionData.tokenExpiry && Date.now() < sessionData.tokenExpiry`. -/
def cacheValid (now : Nat) (s : SessionState) : Bool :=
  truthyS s.bearerToken && truthyN s.tokenExpiry && decide (now < s.tokenExpiry.getD 0)

/-- The credential guard from background.js:
`!settings || !settings.preSharedKey || !settings.email`. -/
def configIncomplete : Option Settings → Bool
  | none => true
  | some s => !truthyS s.preSharedKey || !truthyS s.email

/-- UTF-8 bytes of a Unicode code point (what `encodeURIComponent` percent-encodes). -/
def utf8Bytes (n : Nat) : List Nat :=
  if n < 0x80 then [n]
  else if n < 0x800 then [0xC0 + n / 64, 0x80 + n % 64]
  else if n < 0x10000 then [0xE0 + n / 4096, 0x80 + n / 64 % 64, 0x80 + n % 64]
  else [0xF0 + n / 262144, 0x80 + n / 4096 % 64, 0x80 + n / 64 % 64, 0x80 + n % 64]

/-- Uppercase hexadecimal digit, as produced by `encodeURIComponent`. -/
def hexDigit (n : Nat) : Char :=
  if n < 10 then Char.ofNat (48 + n) else Char.ofNat (55 + n)

/-- Percent-escape of one byte: `%XY`. -/
def pctByte (b : Nat) : List Char :=
  ['%', hexDigit (b / 16), hexDigit (b % 16)]

/-- Characters `encodeURIComponent` leaves unescaped:
ASCII alphanumerics and `- _ . ! ~ * ' ( )`. -/
def isUnreservedURI (c : Char) : Bool :=
  c.isAlpha || c.isDigit || c == '-' || c == '_' || c == '.' || c == '!' ||
  c == '~' || c == '*' || c == '\'' || c == '(' || c == ')'

/-- JavaScript `encodeURIComponent` over a character list. -/
def encodeURIComponent : List Char → List Char
  | [] => []
  | c :: r =>
    (if isUnreservedURI c then [c] else (utf8Bytes c.toNat).flatMap pctByte) ++
      encodeURIComponent r

/-- `encodeURIComponent` over a `String`. -/
def encodeURIComponentStr (s : String) : String :=
  ⟨encodeURIComponent s.data⟩

/-- The authentication URL built in background.js:
a template literal interpolating the pre-shared key verbatim and the email
through `encodeURIComponent`. -/
def authUrlFor (serverUrl preSharedKey email : String) : String :=
  serverUrl ++ "/auth?token=" ++ preSharedKey ++ "&agent_id=" ++ encodeURIComponentStr email

/-- The default server URL hard-coded in background.js. -/
def defaultServerUrl : String := "http://ahp.nuts.services"

/-- The `error` object a JSON body may carry: its `message` field (possibly
absent) and its `JSON.stringify` rendering, used as the fallback message. -/
structure ErrorObj where
  message : Option String
  stringified : String
deriving DecidableEq

/-- Parsed JSON body of the auth endpoint's response, together with the
HTTP `response.ok` flag. -/
structure AuthBody where
  ok : Bool
  bearer_token : Option String
  error : Option ErrorObj
deriving DecidableEq

/-- The distinct failure sites of `getBearerToken`.  Each carries the message
of the `Error` thrown there. -/
inductive AuthErr
  | configurationMissing
  | authRejected (msg : String)
  | networkFailure (msg : String)
deriving DecidableEq

/-- Message of the thrown error, as observed by the pipeline's `catch`. -/
def AuthErr.message : AuthErr → String
  | .configurationMissing => "Authentication settings are not configured."
  | .authRejected m => m
  | .networkFailure m => m

/-- Result of one `getBearerToken()` invocation: the returned token or the
thrown error, the session storage afterwards, and how many authentication
network requests were performed. -/
structure AuthOutcome where
  result : Except AuthErr String
  session : SessionState
  authCalls : Nat

/-- Shallow embedding of `getBearerToken` from background.js.  `authNet`
stands for `fetch` on the auth URL followed by `response.json()`; a rejected
promise at either step is its `.error` case. -/
def getBearerToken (now : Nat) (session : SessionState) (sync : Option Settings)
    (authNet : String → Except String AuthBody) : AuthOutcome :=
  if cacheValid now session then
    ⟨.ok (session.bearerToken.getD ""), session, 0⟩
  else if configIncomplete sync then
    ⟨.error .configurationMissing, session, 0⟩
  else
    let settings := sync.getD ⟨none, none, none, none⟩
    let serverUrl :=
      if settings.serverType == some "custom" && truthyS settings.customServerUrl then
        settings.customServerUrl.getD ""
      else defaultServerUrl
    match authNet (authUrlFor serverUrl (settings.preSharedKey.getD "") (settings.email.getD "")) with
    | .error e => ⟨.error (.networkFailure e), session, 1⟩
    | .ok data =>
      if !data.ok || !truthyS data.bearer_token then
        ⟨.error (.authRejected (orFallback (data.error.bind ErrorObj.message)
            "Failed to get bearer token.")), session, 1⟩
      else
        ⟨.ok (data.bearer_token.getD ""),
          ⟨data.bearer_token, some (now + 55 * 60 * 1000)⟩, 1⟩

/-- A parsed URL as `new URL(...)` yields it: a base (scheme, host, path) and
the ordered list of query parameters. -/
structure JsUrl where
  base : String
  params : List (String × String)
deriving DecidableEq

/-- `URLSearchParams.set(k, v)`: replace the value of the first parameter
named `k`, delete every other parameter named `k`, or append if none exists. -/
def searchParamsSet : List (String × String) → String → String → List (String × String)
  | [], k, v => [(k, v)]
  | (k', v') :: rest, k, v =>
    if k' == k then (k, v) :: rest.filter (fun p => !(p.1 == k))
    else (k', v') :: searchParamsSet rest k v

/-- Parsed JSON body of a tool-server response: its `error` field, if present,
and the rest of the payload (opaque to the bridge). -/
structure ToolBody where
  error : Option ErrorObj
  payload : String
deriving DecidableEq

/-- Result of `fetch` on the tool URL: the HTTP `response.ok` flag and the
outcome of `response.json()` (which may itself reject). -/
structure ToolFetch where
  ok : Bool
  body : Except String ToolBody

/-- A response sent through `sendResponse`: `{success:true, data}` or
`{success:false, error}`. -/
inductive BridgeResponse
  | success (data : ToolBody)
  | failure (error : String)
deriving DecidableEq

/-- A message received by the background listener. -/
structure Request where
  action : String
  url : String
deriving DecidableEq

/-- Observable outcome of delivering one message to the background listener:
the responses sent, the session storage afterwards, the number of
authentication requests, the number of tool-server requests, and the URLs
actually fetched from the tool server. -/
structure ExecOutcome where
  responses : List BridgeResponse
  session : SessionState
  authCalls : Nat
  toolCalls : Nat
  fetchedUrls : List JsUrl

/-- The `executeAHP` promise chain from background.js.  `parseURL` stands for
the `new URL(...)` constructor (its `.error` case is the thrown `TypeError`),
`toolNet` for `fetch` on the tool URL.  Every rejection anywhere in the chain
reaches the final `.catch`, which sends `{success:false, error}`. -/
def handleExecuteAHP (now : Nat) (session : SessionState) (sync : Option Settings)
    (authNet : String → Except String AuthBody)
    (parseURL : String → Except String JsUrl)
    (toolNet : JsUrl → Except String ToolFetch)
    (url : String) : ExecOutcome :=
  let a := getBearerToken now session sync authNet
  match a.result with
  | .error e => ⟨[.failure e.message], a.session, a.authCalls, 0, []⟩
  | .ok tok =>
    match parseURL url with
    | .error m => ⟨[.failure m], a.session, a.authCalls, 0, []⟩
    | .ok u =>
      let u2 : JsUrl := ⟨u.base, searchParamsSet u.params "bearer_token" tok⟩
      match toolNet u2 with
      | .error m => ⟨[.failure m], a.session, a.authCalls, 1, [u2]⟩
      | .ok resp =>
        match resp.body with
        | .error m => ⟨[.failure m], a.session, a.authCalls, 1, [u2]⟩
        | .ok result =>
          match result.error with
          | some eo =>
            ⟨[.failure (orFallback eo.message eo.stringified)],
              a.session, a.authCalls, 1, [u2]⟩
          | none => ⟨[.success result], a.session, a.authCalls, 1, [u2]⟩

/-- The `chrome.runtime.onMessage` listener from background.js: only messages
whose `action` is `"executeAHP"` are handled; any other message falls through
the listener with no `sendResponse` call. -/
def onMessage (now : Nat) (session : SessionState) (sync : Option Settings)
    (authNet : String → Except String AuthBody)
    (parseURL : String → Except String JsUrl)
    (toolNet : JsUrl → Except String ToolFetch)
    (req : Request) : ExecOutcome :=
  if req.action == "executeAHP" then
    handleExecuteAHP now session sync authNet parseURL toolNet req.url
  else
    ⟨[], session, 0, 0, []⟩

/-- A `<code>` element as the detection engine sees it: its text content, its
`data-ahp-processed` marker, and the execute buttons attached so far (each
recorded by its `data-url`). -/
structure CodeBlock where
  text : String
  processed : Bool
  buttons : List String
deriving DecidableEq

/-- One iteration of `findAndProcessAhpUrls` from content.js (Claude) on one
code block: if the text matches the active pattern and the block is not yet
marked processed, mark it and attach one execute button per match occurrence.
`m` stands for `text.match(ahpUrlRegex)` with the global flag: the list of
matched substrings, empty when there is no match. -/
def processBlock (m : String → List String) (b : CodeBlock) : CodeBlock :=
  if m b.text ≠ [] ∧ b.processed = false then
    ⟨b.text, true, b.buttons ++ m b.text⟩
  else b

/-- `findAndProcessAhpUrls` from content.js (Claude): scan every code block of
the context node. -/
def findAndProcessAhpUrls (m : String → List String) (blocks : List CodeBlock) :
    List CodeBlock :=
  blocks.map (processBlock m)

/-- One iteration of `findAndProcessAhpUrls` from chatgpt_content.js on one
code element: same guard, but only the first match (`match(...)[0]`) gets a
button, inserted after the enclosing element. -/
def processBlockChatGPT (m : String → List String) (b : CodeBlock) : CodeBlock :=
  if m b.text ≠ [] ∧ b.processed = false then
    ⟨b.text, true, b.buttons ++ [(m b.text).headD ""]⟩
  else b

/-- `findAndProcessAhpUrls` from chatgpt_content.js. -/
def findAndProcessAhpUrlsChatGPT (m : String → List String) (blocks : List CodeBlock) :
    List CodeBlock :=
  blocks.map (processBlockChatGPT m)

/-- The ordered selector candidates `findChatInput` tries in content.js. -/
def chatInputSelectors : List String :=
  ["[role=\"textbox\"][aria-label*=\"Claude\"]",
   "[aria-label=\"Write your prompt to Claude\"]",
   ".ProseMirror[contenteditable=\"true\"]",
   "div[contenteditable=\"true\"][role=\"textbox\"]"]

/-- The chat input surface: its text content and how many `input` events have
been dispatched on it. -/
structure ChatInput where
  content : String
  inputEvents : Nat
deriving DecidableEq

/-- The send button: its `disabled` flag and how many times it has been clicked. -/
structure SendButton where
  disabled : Bool
  clicks : Nat
deriving DecidableEq

/-- The selector loop of `findChatInput`: try each candidate in order with
`document.querySelector` (the oracle `q`) and return the first element found. -/
def firstQuery (q : String → Option ChatInput) : List String → Option ChatInput
  | [] => none
  | s :: rest =>
    match q s with
    | some e => some e
    | none => firstQuery q rest

/-- `findChatInput` from content.js. -/
def findChatInput (q : String → Option ChatInput) : Option ChatInput :=
  firstQuery q chatInputSelectors

/-- The fenced JSON block written into the chat input. -/
def formatResult (r : String) : String :=
  "```json\n" ++ r ++ "\n```"

/-- Outcome of `injectAndSubmit`: no input surface found (alert, nothing
written), result staged in the input for manual submission, or written and
auto-submitted. -/
inductive InjectResult
  | noInputSurface
  | staged (input : ChatInput)
  | submitted (input : ChatInput) (button : SendButton)
deriving DecidableEq

/-- `injectAndSubmit` from content.js: find the chat input through the selector
list, write the fenced result, dispatch an `input` event, then after the 200 ms
delay click the send button only if it was found and is enabled. -/
def injectAndSubmit (q : String → Option ChatInput) (sendButton : Option SendButton)
    (r : String) : InjectResult :=
  match findChatInput q with
  | none => .noInputSurface
  | some chatInput =>
    let written : ChatInput := ⟨formatResult r, chatInput.inputEvents + 1⟩
    match sendButton with
    | some b => if b.disabled then .staged written else .submitted written ⟨b.disabled, b.clicks + 1⟩
    | none => .staged written

/-- Hexadecimal digit test (both cases), for percent-escape decoding. -/
def isHexChar (c : Char) : Bool :=
  c.isDigit || ('A' ≤ c && c ≤ 'F') || ('a' ≤ c && c ≤ 'f')

/-- Value of a hexadecimal digit character. -/
def hexVal (c : Char) : Nat :=
  if c.isDigit then c.toNat - 48
  else if 'a' ≤ c then c.toNat - 87
  else c.toNat - 55

/-- Lookahead for a decodable percent escape: the next two characters exist
and are hexadecimal digits. -/
def pctDecodable : List Char → Bool
  | h1 :: h2 :: _ => isHexChar h1 && isHexChar h2
  | _ => false

/-- Byte value of a decodable percent escape's two hexadecimal digits. -/
def pctVal : List Char → Nat
  | h1 :: h2 :: _ => 16 * hexVal h1 + hexVal h2
  | _ => 0

/-- Worker for `queryBytes`; the first argument skips characters already
consumed by a percent escape. -/
def queryBytesAux : Nat → List Char → List Nat
  | n + 1, _ :: r => queryBytesAux n r
  | _, [] => []
  | 0, c :: r =>
    if c == '+' then 0x20 :: queryBytesAux 0 r
    else if c == '%' then
      if pctDecodable r then pctVal r :: queryBytesAux 2 r
      else 0x25 :: queryBytesAux 0 r
    else utf8Bytes c.toNat ++ queryBytesAux 0 r

/-- Byte stream of a query-string component, as a form-urlencoded receiver
reads it: `+` is a space, a valid `%XY` escape is the byte `XY`, an invalid
`%` stays literal, and any other character contributes its UTF-8 bytes. -/
def queryBytes (s : List Char) : List Nat :=
  queryBytesAux 0 s

/-- UTF-8 decoding of a byte stream into characters, written as a decision
tree: ASCII byte, else lead byte class, then the required continuation bytes. -/
def utf8Decode : List Nat → Option (List Char)
  | [] => some []
  | b :: r =>
    if b < 0x80 then (utf8Decode r).map (Char.ofNat b :: ·)
    else if b < 0xC0 then none
    else
      match r with
      | [] => none
      | b1 :: r1 =>
        if b < 0xE0 then
          if 0x80 ≤ b1 && b1 < 0xC0 then
            (utf8Decode r1).map (Char.ofNat ((b - 0xC0) * 64 + (b1 - 0x80)) :: ·)
          else none
        else
          match r1 with
          | [] => none
          | b2 :: r2 =>
            if b < 0xF0 then
              if (0x80 ≤ b1 && b1 < 0xC0) && (0x80 ≤ b2 && b2 < 0xC0) then
                (utf8Decode r2).map
                  (Char.ofNat ((b - 0xE0) * 4096 + (b1 - 0x80) * 64 + (b2 - 0x80)) :: ·)
              else none
            else
              match r2 with
              | [] => none
              | b3 :: r3 =>
                if b < 0xF8 then
                  if ((0x80 ≤ b1 && b1 < 0xC0) && (0x80 ≤ b2 && b2 < 0xC0)) &&
                      (0x80 ≤ b3 && b3 < 0xC0) then
                    (utf8Decode r3).map
                      (Char.ofNat ((b - 0xF0) * 262144 + (b1 - 0x80) * 4096 +
                        (b2 - 0x80) * 64 + (b3 - 0x80)) :: ·)
                  else none
                else none

/-- Decoding of one query-string component: plus/percent decoding of the byte
stream followed by UTF-8 decoding. -/
def decodeValue (s : List Char) : Option (List Char) :=
  utf8Decode (queryBytes s)

/-- Split a query string at each `&`. -/
def splitOnAmp : List Char → List (List Char)
  | [] => [[]]
  | c :: r =>
    if c == '&' then [] :: splitOnAmp r
    else
      match splitOnAmp r with
      | s :: ss => (c :: s) :: ss
      | [] => [[c]]

/-- Query part of a URL: strip the fragment at the first `#`, then take what
follows the first `?`. -/
def queryPart (u : List Char) : List Char :=
  ((u.takeWhile (· ≠ '#')).dropWhile (· ≠ '?')).drop 1

/-- Name of one `name=value` query pair (the part before its first `=`). -/
def pairName (seg : List Char) : List Char :=
  seg.takeWhile (· ≠ '=')

/-- Value of one `name=value` query pair (the part after its first `=`). -/
def pairValue (seg : List Char) : List Char :=
  (seg.dropWhile (· ≠ '=')).drop 1

/-- Modelled from the spec: the auth endpoint's server implementation is not
part of this source set; the spec only states that it receives
`GET {serverBaseUrl}/auth?token={preSharedKey}&agent_id={identity}`.  We model
a standard form-urlencoded receiver: the first `name=value` pair of the query
whose name matches is selected and its value is plus/percent/UTF-8 decoded. -/
def receivedParamL (u : List Char) (name : List Char) : Option (List Char) :=
  match (splitOnAmp (queryPart u)).find? (fun seg => pairName seg == name) with
  | none => none
  | some seg => decodeValue (pairValue seg)

/-- String-level wrapper of `receivedParamL`. -/
def receivedParam (u : String) (name : String) : Option String :=
  (receivedParamL u.data name.data).map fun l => ⟨l⟩

/-- A fully configured settings object with the default server selected. -/
def settingsK1 : Settings := ⟨none, none, some "a@b.com", some "k1"⟩

/-- Fresh session storage: no cached token. -/
def emptySession : SessionState := ⟨none, none⟩

/-- Auth network oracle: the endpoint is unreachable. -/
def authNetDown : String → Except String AuthBody := fun _ => .error "Failed to fetch"

/-- Auth network oracle: the endpoint answers `{bearer_token:"T1"}` with HTTP 200. -/
def authNetT1 : String → Except String AuthBody := fun _ => .ok ⟨true, some "T1", none⟩

/-- URL-parsing oracle: every request URL is rejected by `new URL(...)`. -/
def parseURLNone : String → Except String JsUrl := fun _ => .error "Invalid URL"

/-- URL-parsing oracle: the QR tool call, already carrying a caller-supplied
`bearer_token` parameter. -/
def parseURLQr : String → Except String JsUrl :=
  fun _ => .ok ⟨"http://server/generate_qr_code", [("data", "hello"), ("bearer_token", "OLD")]⟩

/-- Tool network oracle: the tool server is unreachable. -/
def toolNetDown : JsUrl → Except String ToolFetch := fun _ => .error "Failed to fetch"

/-- Tool network oracle: HTTP 200 whose JSON body carries a structured error. -/
def toolNetInsufficient : JsUrl → Except String ToolFetch :=
  fun _ => .ok ⟨true, .ok ⟨some ⟨some "insufficient funds", "error object"⟩, ""⟩⟩

/-- Tool network oracle: non-success HTTP status whose JSON body is a clean result. -/
def toolNetCleanBody : JsUrl → Except String ToolFetch :=
  fun _ => .ok ⟨false, .ok ⟨none, "qr code bytes"⟩⟩

/-- Match oracle standing for a code region whose text contains two pattern
matches, `u1` and `u2`. -/
def scanTwoMatches : String → List String :=
  fun s => if s == "t" then ["u1", "u2"] else []

/-- DOM query oracle for the injector: only the third selector candidate
resolves. -/
def queryThirdSelector : String → Option ChatInput :=
  fun s => if s == ".ProseMirror[contenteditable=\"true\"]" then some ⟨"", 0⟩ else none

end AhpBridge

namespace AhpBridge

/-! ### Generic facts about the execution pipeline -/

/-- Whatever the oracles do, `handleExecuteAHP` leaves the session and the
authentication-call count exactly as `getBearerToken` produced them. -/
theorem handleExecuteAHP_session_authCalls (now : Nat) (session : SessionState)
    (sync : Option Settings) (authNet : String → Except String AuthBody)
    (parseURL : String → Except String JsUrl) (toolNet : JsUrl → Except String ToolFetch)
    (url : String) :
    (handleExecuteAHP now session sync authNet parseURL toolNet url).session =
      (getBearerToken now session sync authNet).session ∧
    (handleExecuteAHP now session sync authNet parseURL toolNet url).authCalls =
      (getBearerToken now session sync authNet).authCalls := by
  unfold handleExecuteAHP
  dsimp only
  repeat' split
  all_goals exact ⟨rfl, rfl⟩

/-- C1 (amended).  Every message whose action is `executeAHP` receives exactly
one response of shape success/failure, whatever the token broker, the URL
parser and the tool server do; a message whose action is `executeCall` is not
handled by the listener and receives no response at all. -/
theorem executeAHP_exactly_one_response (now : Nat) (session : SessionState)
    (sync : Option Settings) (authNet : String → Except String AuthBody)
    (parseURL : String → Except String JsUrl) (toolNet : JsUrl → Except String ToolFetch)
    (url : String) :
    (onMessage now session sync authNet parseURL toolNet ⟨"executeAHP", url⟩).responses.length = 1 ∧
    (onMessage now session sync authNet parseURL toolNet ⟨"executeCall", url⟩).responses = [] := by
  constructor
  · show (handleExecuteAHP now session sync authNet parseURL toolNet url).responses.length = 1
    unfold handleExecuteAHP
    dsimp only
    repeat' split
    all_goals rfl
  · rfl

/-- C1 counterexample.  A request of the protocol shape
`{action:"executeCall", url}` is delivered and the listener sends back zero
responses: the claim's "exactly one response per request" fails for the
`executeCall` action, which background.js does not handle. -/
theorem executeCall_unhandled_counterexample :
    (onMessage 0 emptySession (some settingsK1) authNetT1 parseURLNone toolNetDown
        ⟨"executeCall", "http://ahp.nuts.services/get_tools"⟩).responses.length = 0 := by
  rfl

/-- C2.  While an unexpired cached token is present, `getBearerToken` returns
it with zero authentication network calls and an unchanged session, and two
consecutive `executeAHP` executions each perform zero authentication calls. -/
theorem getBearerToken_cached_no_network (now : Nat) (session : SessionState)
    (sync : Option Settings) (authNet : String → Except String AuthBody)
    (parseURL : String → Except String JsUrl) (toolNet : JsUrl → Except String ToolFetch)
    (url : String) (t : String) (x : Nat)
    (hbt : session.bearerToken = some t) (ht : t ≠ "")
    (hx : session.tokenExpiry = some x) (hx0 : x ≠ 0) (hnow : now < x) :
    getBearerToken now session sync authNet = ⟨.ok t, session, 0⟩ ∧
    (onMessage now session sync authNet parseURL toolNet ⟨"executeAHP", url⟩).authCalls = 0 ∧
    (onMessage now session sync authNet parseURL toolNet ⟨"executeAHP", url⟩).session = session ∧
    (onMessage now (onMessage now session sync authNet parseURL toolNet ⟨"executeAHP", url⟩).session
        sync authNet parseURL toolNet ⟨"executeAHP", url⟩).authCalls = 0 := by
  have hcv : cacheValid now session = true := by
    simp [cacheValid, truthyS, truthyN, hbt, hx, ht, hx0]
    simpa [hx] using hnow
  have hg : getBearerToken now session sync authNet = ⟨.ok t, session, 0⟩ := by
    simp [getBearerToken, hcv, hbt]
  have hone : ∀ s' : SessionState, cacheValid now s' = true →
      (onMessage now s' sync authNet parseURL toolNet ⟨"executeAHP", url⟩).authCalls = 0 ∧
      (onMessage now s' sync authNet parseURL toolNet ⟨"executeAHP", url⟩).session = s' := by
    intro s' hcv'
    have h := handleExecuteAHP_session_authCalls now s' sync authNet parseURL toolNet url
    have hg' : (getBearerToken now s' sync authNet).session = s' ∧
        (getBearerToken now s' sync authNet).authCalls = 0 := by
      simp [getBearerToken, hcv']
    constructor
    · show (handleExecuteAHP now s' sync authNet parseURL toolNet url).authCalls = 0
      rw [h.2, hg'.2]
    · show (handleExecuteAHP now s' sync authNet parseURL toolNet url).session = s'
      rw [h.1, hg'.1]
  have h1 := hone session hcv
  refine ⟨hg, h1.1, h1.2, ?_⟩
  rw [h1.2]
  exact (hone session hcv).1

/-- C3.  When no valid cached token is present and the configuration is absent
or incomplete (no settings object, or a missing/empty pre-shared key or
email), `getBearerToken` throws the configuration error and performs zero
network calls, leaving the session unchanged. -/
theorem getBearerToken_config_missing (now : Nat) (session : SessionState)
    (sync : Option Settings) (authNet : String → Except String AuthBody)
    (hc : cacheValid now session = false)
    (hm : configIncomplete sync = true) :
    getBearerToken now session sync authNet = ⟨.error .configurationMissing, session, 0⟩ ∧
    (configIncomplete sync = true ↔
      sync = none ∨ ∃ s, sync = some s ∧
        (s.preSharedKey = none ∨ s.preSharedKey = some "" ∨
         s.email = none ∨ s.email = some "")) := by
  constructor
  · simp [getBearerToken, hc, hm]
  · cases sync with
    | none => simp [configIncomplete]
    | some s =>
      cases s with
      | mk st cu em pk =>
        simp only [configIncomplete, truthyS]
        cases em <;> cases pk <;>
          simp [truthyS, Bool.or_eq_true, Bool.not_eq_true', beq_iff_eq]

/-- C5.  When token acquisition fails, the pipeline answers with exactly the
single failure response carrying the thrown message, performs no tool-server
request, and fetches no URL. -/
theorem executeAHP_auth_failure_no_tool_call (now : Nat) (session : SessionState)
    (sync : Option Settings) (authNet : String → Except String AuthBody)
    (parseURL : String → Except String JsUrl) (toolNet : JsUrl → Except String ToolFetch)
    (url : String) (e : AuthErr)
    (herr : (getBearerToken now session sync authNet).result = .error e) :
    (onMessage now session sync authNet parseURL toolNet ⟨"executeAHP", url⟩).responses =
      [.failure e.message] ∧
    (onMessage now session sync authNet parseURL toolNet ⟨"executeAHP", url⟩).toolCalls = 0 ∧
    (onMessage now session sync authNet parseURL toolNet ⟨"executeAHP", url⟩).fetchedUrls = [] := by
  have : onMessage now session sync authNet parseURL toolNet ⟨"executeAHP", url⟩ =
      handleExecuteAHP now session sync authNet parseURL toolNet url := rfl
  rw [this]
  unfold handleExecuteAHP
  dsimp only
  rw [herr]
  exact ⟨rfl, rfl, rfl⟩

/-- C4.  The session cache is only ever replaced wholesale: either it is left
untouched, or the token value and the expiry are replaced together, with the
expiry fixed 55 minutes ahead — strictly less than the 3600-second lifetime.
In the concrete scenario, authenticating with `{preSharedKey:"k1",
email:"a@b.com"}` against a server answering `{bearer_token:"T1"}` caches
exactly `⟨T1, now+3300000⟩`, and any later call before that expiry returns
`T1` with zero network requests. -/
theorem getBearerToken_expiry_margin_atomic (now : Nat) (session : SessionState)
    (sync : Option Settings) (authNet : String → Except String AuthBody) :
    ((getBearerToken now session sync authNet).session = session ∨
      ∃ t, (getBearerToken now session sync authNet).result = .ok t ∧
        (getBearerToken now session sync authNet).session =
          ⟨some t, some (now + 55 * 60 * 1000)⟩) ∧
    now + 55 * 60 * 1000 < now + 3600000 ∧
    (cacheValid now session = false →
      authNet (authUrlFor defaultServerUrl "k1" "a@b.com") = .ok ⟨true, some "T1", none⟩ →
      getBearerToken now session (some settingsK1) authNet =
        ⟨.ok "T1", ⟨some "T1", some (now + 3300000)⟩, 1⟩ ∧
      ∀ (now2 : Nat) (sync2 : Option Settings) (authNet2 : String → Except String AuthBody),
        now2 < now + 3300000 →
        getBearerToken now2 ⟨some "T1", some (now + 3300000)⟩ sync2 authNet2 =
          ⟨.ok "T1", ⟨some "T1", some (now + 3300000)⟩, 0⟩) := by
  refine ⟨?_, by omega, ?_⟩
  · unfold getBearerToken
    dsimp only
    repeat' split
    · exact .inl rfl
    · exact .inl rfl
    · exact .inl rfl
    · exact .inl rfl
    · rename_i data heq h
      rcases hb : data.bearer_token with _ | v
      · rw [hb] at h
        simp [truthyS] at h
      · refine .inr ⟨v, ?_, ?_⟩ <;> simp [hb]
  · intro hc hnet
    have hci : configIncomplete (some settingsK1) = false := by decide
    have hstep : getBearerToken now session (some settingsK1) authNet =
        ⟨.ok "T1", ⟨some "T1", some (now + 3300000)⟩, 1⟩ := by
      unfold getBearerToken
      rw [hc, hci]
      simp only [Bool.false_eq_true, if_false, Option.getD_some]
      dsimp only [settingsK1]
      rw [show ((none : Option String) == some "custom" &&
          truthyS (none : Option String)) = false from rfl]
      simp only [Bool.false_eq_true, if_false, Option.getD_some]
      rw [hnet]
      simp [truthyS]
    refine ⟨hstep, ?_⟩
    intro now2 sync2 authNet2 h2
    have hcv2 : cacheValid now2 ⟨some "T1", some (now + 3300000)⟩ = true := by
      simp [cacheValid, truthyS, truthyN, h2]
    simp [getBearerToken, hcv2]

/-- Every occurrence of the parameter `k` in the result of
`URLSearchParams.set(k, v)` carries exactly the value `v`. -/
theorem searchParamsSet_values (ps : List (String × String)) (k v : String) :
    ((searchParamsSet ps k v).filter (fun p => p.1 == k)).map Prod.snd = [v] := by
  induction ps with
  | nil => simp [searchParamsSet]
  | cons hd tl ih =>
    rcases hd with ⟨k', v'⟩
    by_cases h : k' == k
    · simp only [searchParamsSet, h, if_pos]
      have : ((tl.filter fun p => !(p.1 == k)).filter fun p => p.1 == k) = [] := by
        rw [List.filter_filter]
        have : ∀ p : String × String, ((p.1 == k) && !(p.1 == k)) = false := by
          intro p; cases hpk : (p.1 == k) <;> simp [hpk]
        simp [this]
      simp [List.filter_cons, this]
    · simp only [searchParamsSet, h, if_neg, Bool.not_eq_true]
      rw [List.filter_cons_of_neg (by simpa using h)]
      exact ih

/-- C6.  On every path where a token was acquired and the request URL parsed,
each URL actually fetched from the tool server carries `bearer_token` exactly
once-per-occurrence with the freshly acquired value: whatever `bearer_token`
parameters the caller's URL already carried are replaced, so the broker is the
single source of the transmitted credential. -/
theorem executeAHP_bearer_token_overwritten (now : Nat) (session : SessionState)
    (sync : Option Settings) (authNet : String → Except String AuthBody)
    (parseURL : String → Except String JsUrl) (toolNet : JsUrl → Except String ToolFetch)
    (url : String) (tok : String) (u : JsUrl)
    (hok : (getBearerToken now session sync authNet).result = .ok tok)
    (hurl : parseURL url = .ok u) :
    (onMessage now session sync authNet parseURL toolNet ⟨"executeAHP", url⟩).fetchedUrls =
      [⟨u.base, searchParamsSet u.params "bearer_token" tok⟩] ∧
    ∀ w ∈ (onMessage now session sync authNet parseURL toolNet ⟨"executeAHP", url⟩).fetchedUrls,
      (w.params.filter (fun p => p.1 == "bearer_token")).map Prod.snd = [tok] := by
  have hmem : (onMessage now session sync authNet parseURL toolNet
      ⟨"executeAHP", url⟩).fetchedUrls =
      [⟨u.base, searchParamsSet u.params "bearer_token" tok⟩] := by
    show (handleExecuteAHP now session sync authNet parseURL toolNet url).fetchedUrls = _
    unfold handleExecuteAHP
    dsimp only
    rw [hok, hurl]
    dsimp only
    repeat' split
    all_goals rfl
  refine ⟨hmem, ?_⟩
  intro w hw
  rw [hmem] at hw
  rw [List.mem_singleton] at hw
  subst hw
  exact searchParamsSet_values u.params "bearer_token" tok

/-- C7.  A structured `error` field in the tool server's JSON body is surfaced
as the single failure response carrying the error's message, even under a
success HTTP status; and a non-success HTTP status alone is not fatal — the
body is still parsed, and a clean body still yields the success response. -/
theorem executeAHP_body_error_surfaced (now : Nat) (session : SessionState)
    (sync : Option Settings) (authNet : String → Except String AuthBody)
    (parseURL : String → Except String JsUrl) (toolNet : JsUrl → Except String ToolFetch)
    (url : String) (tok : String) (u : JsUrl)
    (hok : (getBearerToken now session sync authNet).result = .ok tok)
    (hurl : parseURL url = .ok u) :
    (∀ (httpOk : Bool) (body : ToolBody) (eo : ErrorObj),
        toolNet ⟨u.base, searchParamsSet u.params "bearer_token" tok⟩ = .ok ⟨httpOk, .ok body⟩ →
        body.error = some eo →
        (onMessage now session sync authNet parseURL toolNet ⟨"executeAHP", url⟩).responses =
          [.failure (orFallback eo.message eo.stringified)]) ∧
    (∀ body : ToolBody,
        toolNet ⟨u.base, searchParamsSet u.params "bearer_token" tok⟩ = .ok ⟨false, .ok body⟩ →
        body.error = none →
        (onMessage now session sync authNet parseURL toolNet ⟨"executeAHP", url⟩).responses =
          [.success body]) := by
  constructor
  · intro httpOk body eo htool herr
    show (handleExecuteAHP now session sync authNet parseURL toolNet url).responses = _
    unfold handleExecuteAHP
    dsimp only
    rw [hok, hurl]
    dsimp only
    rw [htool]
    dsimp only
    rw [herr]
  · intro body htool herr
    show (handleExecuteAHP now session sync authNet parseURL toolNet url).responses = _
    unfold handleExecuteAHP
    dsimp only
    rw [hok, hurl]
    dsimp only
    rw [htool]
    dsimp only
    rw [herr]

/-- The Claude scanner never touches a block already marked processed, and
neither does the ChatGPT scanner. -/
theorem processBlock_processed (m : String → List String) (b : CodeBlock)
    (h : b.processed = true) :
    processBlock m b = b ∧ processBlockChatGPT m b = b := by
  constructor <;> simp [processBlock, processBlockChatGPT, h]

/-- One scan pass is idempotent blockwise. -/
theorem processBlock_idem (m : String → List String) (b : CodeBlock) :
    processBlock m (processBlock m b) = processBlock m b ∧
    processBlockChatGPT m (processBlockChatGPT m b) = processBlockChatGPT m b := by
  constructor <;>
    · by_cases hg : m b.text ≠ [] ∧ b.processed = false <;>
        simp [processBlock, processBlockChatGPT, hg]

/-- C8 (amended).  A processed node yields zero additional affordances on
re-scan in both content scripts; a first-seen matching block gets one
affordance per match occurrence in the Claude script but only one affordance
(for the first match) in the ChatGPT script; whole-document re-scans are
idempotent; and identical URLs in different unprocessed nodes each get their
own affordance. -/
theorem findAndProcessAhpUrls_affordances :
    (∀ (m : String → List String) (b : CodeBlock), b.processed = true →
        processBlock m b = b ∧ processBlockChatGPT m b = b) ∧
    (∀ (m : String → List String) (b : CodeBlock), m b.text ≠ [] → b.processed = false →
        (processBlock m b).buttons = b.buttons ++ m b.text ∧
        (processBlock m b).processed = true ∧
        (processBlockChatGPT m b).buttons = b.buttons ++ [(m b.text).headD ""]) ∧
    (∀ (m : String → List String) (blocks : List CodeBlock),
        findAndProcessAhpUrls m (findAndProcessAhpUrls m blocks) =
          findAndProcessAhpUrls m blocks ∧
        findAndProcessAhpUrlsChatGPT m (findAndProcessAhpUrlsChatGPT m blocks) =
          findAndProcessAhpUrlsChatGPT m blocks) ∧
    (∀ (m : String → List String) (t u : String), m t = [u] →
        findAndProcessAhpUrls m [⟨t, false, []⟩, ⟨t, false, []⟩] =
          [⟨t, true, [u]⟩, ⟨t, true, [u]⟩]) := by
  refine ⟨processBlock_processed, ?_, ?_, ?_⟩
  · intro m b hm hp
    refine ⟨?_, ?_, ?_⟩ <;> simp [processBlock, processBlockChatGPT, hm, hp]
  · intro m blocks
    constructor
    · show List.map _ (List.map _ blocks) = List.map _ blocks
      rw [List.map_map]
      refine List.map_congr_left ?_
      intro b _
      exact (processBlock_idem m b).1
    · show List.map _ (List.map _ blocks) = List.map _ blocks
      rw [List.map_map]
      refine List.map_congr_left ?_
      intro b _
      exact (processBlock_idem m b).2
  · intro m t u hm
    simp [findAndProcessAhpUrls, processBlock, hm]

/-- C8 counterexample.  In the ChatGPT content script, a first-seen code
region whose text contains two pattern matches gets an affordance only for
the first match: the second matched URL receives zero affordances, not
exactly one. -/
theorem chatgpt_first_match_counterexample :
    findAndProcessAhpUrlsChatGPT scanTwoMatches [⟨"t", false, []⟩] = [⟨"t", true, ["u1"]⟩] ∧
    "u2" ∈ scanTwoMatches "t" ∧
    "u2" ∉ (findAndProcessAhpUrlsChatGPT scanTwoMatches [⟨"t", false, []⟩]).flatMap
      CodeBlock.buttons := by
  refine ⟨?_, ?_, ?_⟩ <;> decide

/-- The selector loop returns `none` when no candidate resolves. -/
theorem firstQuery_none (q : String → Option ChatInput) (l : List String)
    (h : ∀ s ∈ l, q s = none) : firstQuery q l = none := by
  induction l with
  | nil => rfl
  | cons s rest ih =>
    have hs : q s = none := h s (by simp)
    simp only [firstQuery, hs]
    exact ih fun x hx => h x (by simp [hx])

/-- The selector loop skips a prefix of failing candidates. -/
theorem firstQuery_append (q : String → Option ChatInput) (l1 l2 : List String)
    (h : ∀ s ∈ l1, q s = none) : firstQuery q (l1 ++ l2) = firstQuery q l2 := by
  induction l1 with
  | nil => rfl
  | cons s rest ih =>
    have hs : q s = none := h s (by simp)
    simp only [List.cons_append, firstQuery, hs]
    exact ih fun x hx => h x (by simp [hx])

/-- C9.  The injector finds the text-entry surface by trying the selector
candidates in order and taking the first that resolves; it fails with the
no-input-surface outcome when none matches; with a surface found it always
writes the fenced result and dispatches an input event, and it clicks the
submit control only when one was found and is enabled — otherwise the written
result stays staged for manual submission. -/
theorem injectAndSubmit_selector_fallback (q : String → Option ChatInput)
    (btn : Option SendButton) (r : String) :
    ((∀ s ∈ chatInputSelectors, q s = none) →
        injectAndSubmit q btn r = .noInputSurface) ∧
    (∀ (l1 : List String) (sel : String) (l2 : List String) (e : ChatInput),
        chatInputSelectors = l1 ++ sel :: l2 → (∀ s ∈ l1, q s = none) →
        q sel = some e → findChatInput q = some e) ∧
    (∀ e : ChatInput, findChatInput q = some e → btn = none →
        injectAndSubmit q btn r = .staged ⟨formatResult r, e.inputEvents + 1⟩) ∧
    (∀ (e : ChatInput) (b : SendButton), findChatInput q = some e → btn = some b →
        b.disabled = true →
        injectAndSubmit q btn r = .staged ⟨formatResult r, e.inputEvents + 1⟩) ∧
    (∀ (e : ChatInput) (b : SendButton), findChatInput q = some e → btn = some b →
        b.disabled = false →
        injectAndSubmit q btn r =
          .submitted ⟨formatResult r, e.inputEvents + 1⟩ ⟨false, b.clicks + 1⟩) := by
  refine ⟨?_, ?_, ?_, ?_, ?_⟩
  · intro h
    have : findChatInput q = none := firstQuery_none q chatInputSelectors h
    simp [injectAndSubmit, this]
  · intro l1 sel l2 e hsplit h1 hsel
    show firstQuery q chatInputSelectors = some e
    rw [hsplit, firstQuery_append q l1 (sel :: l2) h1]
    simp [firstQuery, hsel]
  · intro e hfind hb
    simp [injectAndSubmit, hfind, hb]
  · intro e b hfind hb hd
    simp [injectAndSubmit, hfind, hb, hd]
  · intro e b hfind hb hd
    simp [injectAndSubmit, hfind, hb, hd]

/-- Concrete run of the C2 theorem: a cached token `TOK` valid until epoch 10,
queried at time 5. -/
theorem getBearerToken_cached_no_network_witness :
    getBearerToken 5 ⟨some "TOK", some 10⟩ none authNetDown =
      ⟨.ok "TOK", ⟨some "TOK", some 10⟩, 0⟩ ∧
    (onMessage 5 ⟨some "TOK", some 10⟩ none authNetDown parseURLNone toolNetDown
      ⟨"executeAHP", "u"⟩).authCalls = 0 ∧
    (onMessage 5 ⟨some "TOK", some 10⟩ none authNetDown parseURLNone toolNetDown
      ⟨"executeAHP", "u"⟩).session = ⟨some "TOK", some 10⟩ ∧
    (onMessage 5
      (onMessage 5 ⟨some "TOK", some 10⟩ none authNetDown parseURLNone toolNetDown
        ⟨"executeAHP", "u"⟩).session
      none authNetDown parseURLNone toolNetDown ⟨"executeAHP", "u"⟩).authCalls = 0 :=
  getBearerToken_cached_no_network 5 ⟨some "TOK", some 10⟩ none authNetDown parseURLNone
    toolNetDown "u" "TOK" 10 rfl (by decide) rfl (by decide) (by decide)

/-- Concrete run of the C3 theorem: fresh session, no settings object at all. -/
theorem getBearerToken_config_missing_witness :
    getBearerToken 0 emptySession none authNetDown =
      ⟨.error .configurationMissing, emptySession, 0⟩ ∧
    (configIncomplete none = true ↔
      (none : Option Settings) = none ∨ ∃ s, (none : Option Settings) = some s ∧
        (s.preSharedKey = none ∨ s.preSharedKey = some "" ∨
         s.email = none ∨ s.email = some "")) :=
  getBearerToken_config_missing 0 emptySession none authNetDown (by decide) rfl

/-- Concrete run of the C4 theorem's scenario: authenticating at time 1000
caches `⟨T1, 3301000⟩`, and a later call at time 5000 returns `T1` from the
cache with zero network requests. -/
theorem getBearerToken_expiry_margin_atomic_witness :
    getBearerToken 1000 emptySession (some settingsK1) authNetT1 =
      ⟨.ok "T1", ⟨some "T1", some 3301000⟩, 1⟩ ∧
    getBearerToken 5000 ⟨some "T1", some 3301000⟩ none authNetDown =
      ⟨.ok "T1", ⟨some "T1", some 3301000⟩, 0⟩ := by
  have h := (getBearerToken_expiry_margin_atomic 1000 emptySession none authNetT1).2.2
    (by decide) rfl
  exact ⟨h.1, h.2 5000 none authNetDown (by decide)⟩

/-- Concrete run of the C5 theorem: token acquisition fails for lack of
configuration, the pipeline answers with the single failure response and the
tool server is never contacted. -/
theorem executeAHP_auth_failure_no_tool_call_witness :
    (onMessage 0 emptySession none authNetDown parseURLNone toolNetDown
      ⟨"executeAHP", "u"⟩).responses =
      [.failure "Authentication settings are not configured."] ∧
    (onMessage 0 emptySession none authNetDown parseURLNone toolNetDown
      ⟨"executeAHP", "u"⟩).toolCalls = 0 ∧
    (onMessage 0 emptySession none authNetDown parseURLNone toolNetDown
      ⟨"executeAHP", "u"⟩).fetchedUrls = [] :=
  executeAHP_auth_failure_no_tool_call 0 emptySession none authNetDown parseURLNone
    toolNetDown "u" .configurationMissing rfl

/-- Concrete run of the C6 theorem: the caller's URL already carries
`bearer_token=OLD`; the URL actually fetched carries the broker's `T1` as its
only `bearer_token` value. -/
theorem executeAHP_bearer_token_overwritten_witness :
    (onMessage 0 emptySession (some settingsK1) authNetT1 parseURLQr toolNetDown
      ⟨"executeAHP", "http://server/generate_qr_code?data=hello&bearer_token=OLD"⟩).fetchedUrls =
      [⟨"http://server/generate_qr_code", [("data", "hello"), ("bearer_token", "T1")]⟩] ∧
    ∀ w ∈ (onMessage 0 emptySession (some settingsK1) authNetT1 parseURLQr toolNetDown
      ⟨"executeAHP", "http://server/generate_qr_code?data=hello&bearer_token=OLD"⟩).fetchedUrls,
      (w.params.filter (fun p => p.1 == "bearer_token")).map Prod.snd = ["T1"] :=
  executeAHP_bearer_token_overwritten 0 emptySession (some settingsK1) authNetT1 parseURLQr
    toolNetDown "http://server/generate_qr_code?data=hello&bearer_token=OLD" "T1"
    ⟨"http://server/generate_qr_code", [("data", "hello"), ("bearer_token", "OLD")]⟩ rfl rfl

/-- Concrete run of the C7 theorem: an HTTP-200 body
`{error:{message:"insufficient funds"}}` yields the failure response with that
message, and a non-success status with a clean body still yields success. -/
theorem executeAHP_body_error_surfaced_witness :
    (onMessage 0 emptySession (some settingsK1) authNetT1 parseURLQr toolNetInsufficient
      ⟨"executeAHP", "http://server/generate_qr_code?data=hello"⟩).responses =
      [.failure "insufficient funds"] ∧
    (onMessage 0 emptySession (some settingsK1) authNetT1 parseURLQr toolNetCleanBody
      ⟨"executeAHP", "http://server/generate_qr_code?data=hello"⟩).responses =
      [.success ⟨none, "qr code bytes"⟩] :=
  ⟨(executeAHP_body_error_surfaced 0 emptySession (some settingsK1) authNetT1 parseURLQr
      toolNetInsufficient "http://server/generate_qr_code?data=hello" "T1"
      ⟨"http://server/generate_qr_code", [("data", "hello"), ("bearer_token", "OLD")]⟩
      rfl rfl).1 true ⟨some ⟨some "insufficient funds", "error object"⟩, ""⟩
      ⟨some "insufficient funds", "error object"⟩ rfl rfl,
   (executeAHP_body_error_surfaced 0 emptySession (some settingsK1) authNetT1 parseURLQr
      toolNetCleanBody "http://server/generate_qr_code?data=hello" "T1"
      ⟨"http://server/generate_qr_code", [("data", "hello"), ("bearer_token", "OLD")]⟩
      rfl rfl).2 ⟨none, "qr code bytes"⟩ rfl rfl⟩

/-- Concrete run of the C8 theorem: a first-seen block with two matches gets
both affordances in the Claude script; a processed block is left alone. -/
theorem findAndProcessAhpUrls_affordances_witness :
    (processBlock scanTwoMatches ⟨"t", false, []⟩).buttons = [] ++ ["u1", "u2"] ∧
    processBlock scanTwoMatches ⟨"t", true, ["u1"]⟩ = ⟨"t", true, ["u1"]⟩ := by
  refine ⟨(findAndProcessAhpUrls_affordances.2.1 scanTwoMatches ⟨"t", false, []⟩ ?_ rfl).1,
    (findAndProcessAhpUrls_affordances.1 scanTwoMatches ⟨"t", true, ["u1"]⟩ rfl).1⟩
  decide

/-- Concrete run of the C9 theorem: only the third selector candidate
resolves; with no send button the result is staged, with an enabled button it
is submitted. -/
theorem injectAndSubmit_selector_fallback_witness :
    findChatInput queryThirdSelector = some ⟨"", 0⟩ ∧
    injectAndSubmit queryThirdSelector none "ok" = .staged ⟨formatResult "ok", 1⟩ ∧
    injectAndSubmit queryThirdSelector (some ⟨false, 0⟩) "ok" =
      .submitted ⟨formatResult "ok", 1⟩ ⟨false, 1⟩ := by
  have h := injectAndSubmit_selector_fallback queryThirdSelector none "ok"
  have hf : findChatInput queryThirdSelector = some ⟨"", 0⟩ :=
    h.2.1 ["[role=\"textbox\"][aria-label*=\"Claude\"]",
        "[aria-label=\"Write your prompt to Claude\"]"]
      ".ProseMirror[contenteditable=\"true\"]"
      ["div[contenteditable=\"true\"][role=\"textbox\"]"] ⟨"", 0⟩ rfl (by decide) (by decide)
  have h2 := injectAndSubmit_selector_fallback queryThirdSelector (some ⟨false, 0⟩) "ok"
  exact ⟨hf, h.2.2.1 ⟨"", 0⟩ hf rfl, h2.2.2.2.2 ⟨"", 0⟩ ⟨false, 0⟩ hf rfl rfl⟩

/-! ### List scanning helpers for the query-string analysis -/

theorem takeWhile_append_all {α : Type} (p : α → Bool) (l1 l2 : List α)
    (h : ∀ x ∈ l1, p x = true) :
    (l1 ++ l2).takeWhile p = l1 ++ l2.takeWhile p := by
  induction l1 with
  | nil => rfl
  | cons c r ih =>
    have hc : p c = true := h c (by simp)
    simp only [List.cons_append, List.takeWhile_cons, hc, if_true]
    rw [ih fun x hx => h x (by simp [hx])]

theorem takeWhile_all {α : Type} (p : α → Bool) (l : List α)
    (h : ∀ x ∈ l, p x = true) : l.takeWhile p = l := by
  have := takeWhile_append_all p l [] h
  simpa using this

theorem takeWhile_append_stop {α : Type} (p : α → Bool) (l1 l2 : List α)
    (h : ∃ x ∈ l1, p x = false) :
    (l1 ++ l2).takeWhile p = l1.takeWhile p := by
  induction l1 with
  | nil => simp at h
  | cons c r ih =>
    cases hc : p c with
    | false => simp [List.takeWhile_cons, hc]
    | true =>
      simp only [List.cons_append, List.takeWhile_cons, hc, if_true]
      rcases h with ⟨x, hx, hpx⟩
      rcases List.mem_cons.mp hx with rfl | hx'
      · rw [hc] at hpx; cases hpx
      · rw [ih ⟨x, hx', hpx⟩]

theorem dropWhile_append_all {α : Type} (p : α → Bool) (l1 l2 : List α)
    (h : ∀ x ∈ l1, p x = true) :
    (l1 ++ l2).dropWhile p = l2.dropWhile p := by
  induction l1 with
  | nil => rfl
  | cons c r ih =>
    have hc : p c = true := h c (by simp)
    simp only [List.cons_append, List.dropWhile_cons, hc, if_true]
    exact ih fun x hx => h x (by simp [hx])

theorem takeWhile_length_le {α : Type} (p : α → Bool) (l : List α) :
    (l.takeWhile p).length ≤ l.length := by
  induction l with
  | nil => simp
  | cons c r ih =>
    cases hc : p c with
    | false => simp [List.takeWhile_cons, hc]
    | true =>
      simp only [List.takeWhile_cons, hc, if_true, List.length_cons]
      omega

theorem takeWhile_eq_of_length {α : Type} (p : α → Bool) (l : List α)
    (h : (l.takeWhile p).length = l.length) : l.takeWhile p = l := by
  induction l with
  | nil => rfl
  | cons c r ih =>
    cases hc : p c with
    | false => simp [List.takeWhile_cons, hc] at h
    | true =>
      simp only [List.takeWhile_cons, hc, if_true] at h ⊢
      simp only [List.length_cons, Nat.succ.injEq] at h
      rw [ih h]

theorem mem_of_takeWhile_eq_self {α : Type} (p : α → Bool) (l : List α)
    (h : l.takeWhile p = l) : ∀ x ∈ l, p x = true := by
  induction l with
  | nil => simp
  | cons c r ih =>
    cases hc : p c with
    | false => simp [List.takeWhile_cons, hc] at h
    | true =>
      simp only [List.takeWhile_cons, hc, if_true, List.cons.injEq, true_and] at h
      intro x hx
      rcases List.mem_cons.mp hx with rfl | hx'
      · exact hc
      · exact ih h x hx'

theorem splitOnAmp_head (l : List Char) :
    ∃ ss, splitOnAmp l = l.takeWhile (· ≠ '&') :: ss := by
  induction l with
  | nil => exact ⟨[], rfl⟩
  | cons c r ih =>
    by_cases hc : c = '&'
    · subst hc
      exact ⟨splitOnAmp r, by simp [splitOnAmp, List.takeWhile_cons]⟩
    · rcases ih with ⟨ss, hss⟩
      refine ⟨ss, ?_⟩
      simp only [splitOnAmp, beq_iff_eq, hc, if_false, hss, List.takeWhile_cons]
      simp [hc]

theorem splitOnAmp_no_amp (l : List Char) (h : ∀ x ∈ l, x ≠ '&') :
    splitOnAmp l = [l] := by
  induction l with
  | nil => rfl
  | cons c r ih =>
    have hc : c ≠ '&' := h c (by simp)
    have := ih fun x hx => h x (by simp [hx])
    simp [splitOnAmp, hc, this]

theorem splitOnAmp_append (l1 l2 : List Char) (h : ∀ x ∈ l1, x ≠ '&') :
    splitOnAmp (l1 ++ '&' :: l2) = l1 :: splitOnAmp l2 := by
  induction l1 with
  | nil => simp [splitOnAmp]
  | cons c r ih =>
    have hc : c ≠ '&' := h c (by simp)
    have := ih fun x hx => h x (by simp [hx])
    simp [splitOnAmp, hc, this]

/-! ### Correctness of the percent/UTF-8 coding pair -/

theorem char_toNat_lt (c : Char) : c.toNat < 0x110000 := by
  have h := c.valid
  rcases h with h | h
  · have : c.val.toNat < 0xD800 := h
    simp only [Char.toNat]
    omega
  · rcases h with ⟨_, h2⟩
    have : c.val.toNat < 0x110000 := h2
    simpa [Char.toNat] using this

theorem utf8Bytes_lt256 (n : Nat) (hn : n < 0x110000) : ∀ b ∈ utf8Bytes n, b < 256 := by
  intro b hb
  unfold utf8Bytes at hb
  split_ifs at hb <;> simp at hb <;> omega

theorem hexDigit_spec : ∀ m, m < 16 →
    isHexChar (hexDigit m) = true ∧ hexVal (hexDigit m) = m ∧
    hexDigit m ≠ '#' ∧ hexDigit m ≠ '&' ∧ hexDigit m ≠ '+' ∧ hexDigit m ≠ '%' := by
  decide

theorem queryBytes_nil : queryBytes [] = [] := rfl

theorem queryBytes_plus (r : List Char) : queryBytes ('+' :: r) = 0x20 :: queryBytes r := rfl

theorem queryBytes_pct_valid (h1 h2 : Char) (r : List Char)
    (hh : (isHexChar h1 && isHexChar h2) = true) :
    queryBytes ('%' :: h1 :: h2 :: r) = (16 * hexVal h1 + hexVal h2) :: queryBytes r := by
  simp [queryBytes, queryBytesAux, pctDecodable, pctVal, hh]

theorem queryBytes_pct_invalid (r : List Char) (hh : pctDecodable r = false) :
    queryBytes ('%' :: r) = 0x25 :: queryBytes r := by
  simp [queryBytes, queryBytesAux, hh]

theorem queryBytes_raw (c : Char) (r : List Char) (hp : c ≠ '+') (hpc : c ≠ '%') :
    queryBytes (c :: r) = utf8Bytes c.toNat ++ queryBytes r := by
  have h1 : (c == '+') = false := by simp [hp]
  have h2 : (c == '%') = false := by simp [hpc]
  simp [queryBytes, queryBytesAux, h1, h2]

theorem utf8Decode_utf8Bytes (n : Nat) (hn : n < 0x110000) (bs : List Nat) :
    utf8Decode (utf8Bytes n ++ bs) = (utf8Decode bs).map (Char.ofNat n :: ·) := by
  by_cases e1 : n < 0x80
  · have hub : utf8Bytes n = [n] := by rw [utf8Bytes, if_pos e1]
    rw [hub, List.cons_append, List.nil_append]
    show utf8Decode (n :: bs) = _
    rw [utf8Decode.eq_def]
    dsimp only
    rw [if_pos e1]
  · by_cases e2 : n < 0x800
    · have hub : utf8Bytes n = [0xC0 + n / 64, 0x80 + n % 64] := by
        rw [utf8Bytes, if_neg e1, if_pos e2]
      have hb0 : ¬(0xC0 + n / 64 < 0x80) := by omega
      have hb0' : ¬(0xC0 + n / 64 < 0xC0) := by omega
      have hb0'' : 0xC0 + n / 64 < 0xE0 := by omega
      have hc : (0x80 ≤ 0x80 + n % 64 && 0x80 + n % 64 < 0xC0) = true := by
        simp only [Bool.and_eq_true, decide_eq_true_eq]
        omega
      have hval : (0xC0 + n / 64 - 0xC0) * 64 + (0x80 + n % 64 - 0x80) = n := by omega
      rw [hub]
      show utf8Decode ((0xC0 + n / 64) :: (0x80 + n % 64) :: bs) = _
      rw [utf8Decode.eq_def]
      dsimp only
      rw [if_neg hb0, if_neg hb0', if_pos hb0'', if_pos hc, hval]
    · by_cases e3 : n < 0x10000
      · have hub : utf8Bytes n = [0xE0 + n / 4096, 0x80 + n / 64 % 64, 0x80 + n % 64] := by
          rw [utf8Bytes, if_neg e1, if_neg e2, if_pos e3]
        have hb0 : ¬(0xE0 + n / 4096 < 0x80) := by omega
        have hb0' : ¬(0xE0 + n / 4096 < 0xC0) := by omega
        have hb0'' : ¬(0xE0 + n / 4096 < 0xE0) := by omega
        have hb0''' : 0xE0 + n / 4096 < 0xF0 := by omega
        have hc : ((0x80 ≤ 0x80 + n / 64 % 64 && 0x80 + n / 64 % 64 < 0xC0) &&
            (0x80 ≤ 0x80 + n % 64 && 0x80 + n % 64 < 0xC0)) = true := by
          simp only [Bool.and_eq_true, decide_eq_true_eq]
          omega
        have hval : (0xE0 + n / 4096 - 0xE0) * 4096 + (0x80 + n / 64 % 64 - 0x80) * 64 +
            (0x80 + n % 64 - 0x80) = n := by omega
        rw [hub]
        show utf8Decode ((0xE0 + n / 4096) :: (0x80 + n / 64 % 64) :: (0x80 + n % 64) :: bs) = _
        rw [utf8Decode.eq_def]
        dsimp only
        rw [if_neg hb0, if_neg hb0', if_neg hb0'', if_pos hb0''', if_pos hc, hval]
      · have hub : utf8Bytes n =
            [0xF0 + n / 262144, 0x80 + n / 4096 % 64, 0x80 + n / 64 % 64, 0x80 + n % 64] := by
          rw [utf8Bytes, if_neg e1, if_neg e2, if_neg e3]
        have hb0 : ¬(0xF0 + n / 262144 < 0x80) := by omega
        have hb0' : ¬(0xF0 + n / 262144 < 0xC0) := by omega
        have hb0'' : ¬(0xF0 + n / 262144 < 0xE0) := by omega
        have hb0''' : ¬(0xF0 + n / 262144 < 0xF0) := by omega
        have hb4 : 0xF0 + n / 262144 < 0xF8 := by omega
        have hc : (((0x80 ≤ 0x80 + n / 4096 % 64 && 0x80 + n / 4096 % 64 < 0xC0) &&
            (0x80 ≤ 0x80 + n / 64 % 64 && 0x80 + n / 64 % 64 < 0xC0)) &&
            (0x80 ≤ 0x80 + n % 64 && 0x80 + n % 64 < 0xC0)) = true := by
          simp only [Bool.and_eq_true, decide_eq_true_eq]
          omega
        have hval : (0xF0 + n / 262144 - 0xF0) * 262144 + (0x80 + n / 4096 % 64 - 0x80) * 4096 +
            (0x80 + n / 64 % 64 - 0x80) * 64 + (0x80 + n % 64 - 0x80) = n := by omega
        rw [hub]
        show utf8Decode ((0xF0 + n / 262144) :: (0x80 + n / 4096 % 64) ::
          (0x80 + n / 64 % 64) :: (0x80 + n % 64) :: bs) = _
        rw [utf8Decode.eq_def]
        dsimp only
        rw [if_neg hb0, if_neg hb0', if_neg hb0'', if_neg hb0''', if_pos hb4, if_pos hc, hval]

theorem utf8Decode_ascii_inv (b : Nat) (hb : b < 0x80) (X : List Nat) (out : List Char)
    (h : utf8Decode (b :: X) = some out) :
    ∃ out', utf8Decode X = some out' ∧ out = Char.ofNat b :: out' := by
  rw [utf8Decode.eq_def] at h
  dsimp only at h
  rw [if_pos hb] at h
  cases hX : utf8Decode X with
  | none => rw [hX] at h; cases h
  | some o =>
    rw [hX] at h
    simp only [Option.map_some', Option.some.injEq] at h
    exact ⟨o, rfl, h.symm⟩

theorem utf8Decode_cont_fail (b : Nat) (hb1 : 0x80 ≤ b) (hb2 : b < 0xC0) (X : List Nat) :
    utf8Decode (b :: X) = none := by
  rw [utf8Decode.eq_def]
  dsimp only
  rw [if_neg (by omega), if_pos hb2]

theorem utf8Decode_lead2_inv (b : Nat) (hb1 : 0xC0 ≤ b) (hb2 : b < 0xE0)
    (X : List Nat) (out : List Char) (h : utf8Decode (b :: X) = some out) :
    ∃ b1 X1 out', X = b1 :: X1 ∧ 0x80 ≤ b1 ∧ b1 < 0xC0 ∧ utf8Decode X1 = some out' ∧
      out = Char.ofNat ((b - 0xC0) * 64 + (b1 - 0x80)) :: out' := by
  rw [utf8Decode.eq_def] at h
  dsimp only at h
  rw [if_neg (by omega), if_neg (by omega)] at h
  cases X with
  | nil => cases h
  | cons b1 X1 =>
    dsimp only at h
    rw [if_pos hb2] at h
    cases hcont : (0x80 ≤ b1 && b1 < 0xC0) with
    | false => rw [hcont] at h; cases h
    | true =>
      rw [if_pos hcont] at h
      have hc : 0x80 ≤ b1 ∧ b1 < 0xC0 := by
        simpa [Bool.and_eq_true, decide_eq_true_eq] using hcont
      cases hX : utf8Decode X1 with
      | none => rw [hX] at h; cases h
      | some o =>
        rw [hX] at h
        simp only [Option.map_some', Option.some.injEq] at h
        exact ⟨b1, X1, o, rfl, hc.1, hc.2, hX, h.symm⟩

theorem utf8Decode_lead3_inv (b : Nat) (hb1 : 0xE0 ≤ b) (hb2 : b < 0xF0)
    (X : List Nat) (out : List Char) (h : utf8Decode (b :: X) = some out) :
    ∃ b1 b2 X2 out', X = b1 :: b2 :: X2 ∧ 0x80 ≤ b1 ∧ b1 < 0xC0 ∧ 0x80 ≤ b2 ∧ b2 < 0xC0 ∧
      utf8Decode X2 = some out' ∧
      out = Char.ofNat ((b - 0xE0) * 4096 + (b1 - 0x80) * 64 + (b2 - 0x80)) :: out' := by
  rw [utf8Decode.eq_def] at h
  dsimp only at h
  rw [if_neg (by omega), if_neg (by omega)] at h
  cases X with
  | nil => cases h
  | cons b1 X1 =>
    dsimp only at h
    rw [if_neg (by omega)] at h
    cases X1 with
    | nil => cases h
    | cons b2 X2 =>
      dsimp only at h
      rw [if_pos hb2] at h
      cases hcont : ((0x80 ≤ b1 && b1 < 0xC0) && (0x80 ≤ b2 && b2 < 0xC0)) with
      | false => rw [hcont] at h; cases h
      | true =>
        rw [if_pos hcont] at h
        have hc : (0x80 ≤ b1 ∧ b1 < 0xC0) ∧ 0x80 ≤ b2 ∧ b2 < 0xC0 := by
          simpa [Bool.and_eq_true, decide_eq_true_eq] using hcont
        cases hX : utf8Decode X2 with
        | none => rw [hX] at h; cases h
        | some o =>
          rw [hX] at h
          simp only [Option.map_some', Option.some.injEq] at h
          exact ⟨b1, b2, X2, o, rfl, hc.1.1, hc.1.2, hc.2.1, hc.2.2, hX, h.symm⟩

theorem utf8Decode_lead4_inv (b : Nat) (hb1 : 0xF0 ≤ b) (hb2 : b < 0xF8)
    (X : List Nat) (out : List Char) (h : utf8Decode (b :: X) = some out) :
    ∃ b1 b2 b3 X3 out', X = b1 :: b2 :: b3 :: X3 ∧
      0x80 ≤ b1 ∧ b1 < 0xC0 ∧ 0x80 ≤ b2 ∧ b2 < 0xC0 ∧ 0x80 ≤ b3 ∧ b3 < 0xC0 ∧
      utf8Decode X3 = some out' ∧
      out = Char.ofNat ((b - 0xF0) * 262144 + (b1 - 0x80) * 4096 +
        (b2 - 0x80) * 64 + (b3 - 0x80)) :: out' := by
  rw [utf8Decode.eq_def] at h
  dsimp only at h
  rw [if_neg (by omega), if_neg (by omega)] at h
  cases X with
  | nil => cases h
  | cons b1 X1 =>
    dsimp only at h
    rw [if_neg (by omega)] at h
    cases X1 with
    | nil => cases h
    | cons b2 X2 =>
      dsimp only at h
      rw [if_neg (by omega)] at h
      cases X2 with
      | nil => cases h
      | cons b3 X3 =>
        dsimp only at h
        rw [if_pos hb2] at h
        cases hcont : (((0x80 ≤ b1 && b1 < 0xC0) && (0x80 ≤ b2 && b2 < 0xC0)) &&
            (0x80 ≤ b3 && b3 < 0xC0)) with
        | false => rw [hcont] at h; cases h
        | true =>
          rw [if_pos hcont] at h
          have hc : ((0x80 ≤ b1 ∧ b1 < 0xC0) ∧ 0x80 ≤ b2 ∧ b2 < 0xC0) ∧
              0x80 ≤ b3 ∧ b3 < 0xC0 := by
            simpa [Bool.and_eq_true, decide_eq_true_eq] using hcont
          cases hX : utf8Decode X3 with
          | none => rw [hX] at h; cases h
          | some o =>
            rw [hX] at h
            simp only [Option.map_some', Option.some.injEq] at h
            exact ⟨b1, b2, b3, X3, o, rfl, hc.1.1.1, hc.1.1.2, hc.1.2.1, hc.1.2.2,
              hc.2.1, hc.2.2, hX, h.symm⟩

theorem utf8Decode_lead_fail (b : Nat) (hb : 0xF8 ≤ b) (X : List Nat) :
    utf8Decode (b :: X) = none := by
  rw [utf8Decode.eq_def]
  dsimp only
  rw [if_neg (by omega), if_neg (by omega)]
  cases X with
  | nil => rfl
  | cons b1 X1 =>
    dsimp only
    rw [if_neg (by omega)]
    cases X1 with
    | nil => rfl
    | cons b2 X2 =>
      dsimp only
      rw [if_neg (by omega)]
      cases X2 with
      | nil => rfl
      | cons b3 X3 =>
        dsimp only
        rw [if_neg (by omega)]

/-- A continuation byte at the head of a component's byte stream can only
come from a percent escape: `+` yields a space, a raw character contributes
its UTF-8 bytes whose first is never a continuation byte. -/
theorem queryBytes_cont_head (s : List Char) (b : Nat) (bs : List Nat)
    (h : queryBytes s = b :: bs) (hb1 : 0x80 ≤ b) (hb2 : b < 0xC0) :
    ∃ h1 h2 s2, s = '%' :: h1 :: h2 :: s2 ∧ (isHexChar h1 && isHexChar h2) = true ∧
      b = 16 * hexVal h1 + hexVal h2 ∧ bs = queryBytes s2 := by
  cases s with
  | nil => rw [queryBytes_nil] at h; cases h
  | cons c r =>
    by_cases hp : c = '+'
    · subst hp
      rw [queryBytes_plus] at h
      have hb : (0x20 : Nat) = b := by
        have := congrArg (fun l => List.headD l 0) h
        simpa using this
      omega
    · by_cases hpc : c = '%'
      · subst hpc
        cases hd : pctDecodable r with
        | false =>
          rw [queryBytes_pct_invalid r hd] at h
          have hb : (0x25 : Nat) = b := by
            have := congrArg (fun l => List.headD l 0) h
            simpa using this
          omega
        | true =>
          cases r with
          | nil => simp [pctDecodable] at hd
          | cons g1 r' =>
            cases r' with
            | nil => simp [pctDecodable] at hd
            | cons g2 r2 =>
              have hhex : (isHexChar g1 && isHexChar g2) = true := by
                simpa [pctDecodable] using hd
              rw [queryBytes_pct_valid g1 g2 r2 hhex] at h
              have hb : 16 * hexVal g1 + hexVal g2 = b := by
                have := congrArg (fun l => List.headD l 0) h
                simpa using this
              have hbs : queryBytes r2 = bs := by
                have := congrArg List.tail h
                simpa using this
              exact ⟨g1, g2, r2, rfl, hhex, hb.symm, hbs.symm⟩
      · rw [queryBytes_raw c r hp hpc] at h
        have hn := char_toNat_lt c
        unfold utf8Bytes at h
        split_ifs at h with f1 f2 f3
        · have hb : c.toNat = b := by
            have := congrArg (fun l => List.headD l 0) h
            simpa using this
          omega
        · have hb : 0xC0 + c.toNat / 64 = b := by
            have := congrArg (fun l => List.headD l 0) h
            simpa using this
          omega
        · have hb : 0xE0 + c.toNat / 4096 = b := by
            have := congrArg (fun l => List.headD l 0) h
            simpa using this
          omega
        · have hb : 0xF0 + c.toNat / 262144 = b := by
            have := congrArg (fun l => List.headD l 0) h
            simpa using this
          omega

theorem decode_length_fuel : ∀ (fuel : Nat) (s : List Char), s.length ≤ fuel →
    ∀ out, utf8Decode (queryBytes s) = some out → out.length ≤ s.length := by
  intro fuel
  induction fuel with
  | zero =>
    intro s hs out h
    have hnil : s = [] := List.length_eq_zero.mp (Nat.le_zero.mp hs)
    subst hnil
    rw [queryBytes_nil] at h
    have : out = [] := by
      have h' : some ([] : List Char) = some out := h
      exact (Option.some.injEq _ _ ▸ h').symm
    simp [this]
  | succ fuel ih =>
    intro s hs out h
    cases s with
    | nil =>
      rw [queryBytes_nil] at h
      have : out = [] := by
        have h' : some ([] : List Char) = some out := h
        exact (Option.some.injEq _ _ ▸ h').symm
      simp [this]
    | cons c r =>
      simp only [List.length_cons] at hs ⊢
      have hr : r.length ≤ fuel := Nat.le_of_succ_le_succ hs
      by_cases hp : c = '+'
      · subst hp
        rw [queryBytes_plus] at h
        rcases utf8Decode_ascii_inv 0x20 (by omega) _ out h with ⟨out', hX, hout⟩
        have := ih r hr out' hX
        subst hout
        simp only [List.length_cons]
        omega
      · by_cases hpc : c = '%'
        · subst hpc
          cases hd : pctDecodable r with
          | false =>
            rw [queryBytes_pct_invalid r hd] at h
            rcases utf8Decode_ascii_inv 0x25 (by omega) _ out h with ⟨out', hX, hout⟩
            have := ih r hr out' hX
            subst hout
            simp only [List.length_cons]
            omega
          | true =>
            cases r with
            | nil => simp [pctDecodable] at hd
            | cons g1 r' =>
              cases r' with
              | nil => simp [pctDecodable] at hd
              | cons g2 r2 =>
                have hhex : (isHexChar g1 && isHexChar g2) = true := by
                  simpa [pctDecodable] using hd
                rw [queryBytes_pct_valid g1 g2 r2 hhex] at h
                simp only [List.length_cons] at hs hr ⊢
                have hr2 : r2.length ≤ fuel := by omega
                set b := 16 * hexVal g1 + hexVal g2 with hbdef
                by_cases c1 : b < 0x80
                · rcases utf8Decode_ascii_inv b c1 _ out h with ⟨out', hX, hout⟩
                  have := ih r2 hr2 out' hX
                  subst hout
                  simp only [List.length_cons]
                  omega
                · by_cases c2 : b < 0xC0
                  · rw [utf8Decode_cont_fail b (by omega) c2] at h
                    cases h
                  · by_cases c3 : b < 0xE0
                    · rcases utf8Decode_lead2_inv b (by omega) c3 _ out h with
                        ⟨b1, X1, out', hX1, hc1, hc2, hdec, hout⟩
                      rcases queryBytes_cont_head r2 b1 X1 hX1 hc1 hc2 with
                        ⟨j1, j2, s2, hs2, hjhex, hbval, hXq⟩
                      subst hs2
                      simp only [List.length_cons] at hr2 ⊢
                      have hdec' : utf8Decode (queryBytes s2) = some out' := by
                        rw [← hXq]; exact hdec
                      have := ih s2 (by omega) out' hdec'
                      subst hout
                      simp only [List.length_cons]
                      omega
                    · by_cases c4 : b < 0xF0
                      · rcases utf8Decode_lead3_inv b (by omega) c4 _ out h with
                          ⟨b1, b2, X2, out', hX1, hc1, hc2, hc3, hc4, hdec, hout⟩
                        rcases queryBytes_cont_head r2 b1 (b2 :: X2) hX1 hc1 hc2 with
                          ⟨j1, j2, s2, hs2, hjhex, hbval, hXq⟩
                        rcases queryBytes_cont_head s2 b2 X2 hXq.symm hc3 hc4 with
                          ⟨j3, j4, s3, hs3, hjhex2, hbval2, hXq2⟩
                        subst hs2
                        subst hs3
                        simp only [List.length_cons] at hr2 ⊢
                        have hdec' : utf8Decode (queryBytes s3) = some out' := by
                          rw [← hXq2]; exact hdec
                        have := ih s3 (by omega) out' hdec'
                        subst hout
                        simp only [List.length_cons]
                        omega
                      · by_cases c5 : b < 0xF8
                        · rcases utf8Decode_lead4_inv b (by omega) c5 _ out h with
                            ⟨b1, b2, b3, X3, out', hX1, hc1, hc2, hc3, hc4, hc5, hc6, hdec, hout⟩
                          rcases queryBytes_cont_head r2 b1 (b2 :: b3 :: X3) hX1 hc1 hc2 with
                            ⟨j1, j2, s2, hs2, hjhex, hbval, hXq⟩
                          rcases queryBytes_cont_head s2 b2 (b3 :: X3) hXq.symm hc3 hc4 with
                            ⟨j3, j4, s3, hs3, hjhex2, hbval2, hXq2⟩
                          rcases queryBytes_cont_head s3 b3 X3 hXq2.symm hc5 hc6 with
                            ⟨j5, j6, s4, hs4, hjhex3, hbval3, hXq3⟩
                          subst hs2
                          subst hs3
                          subst hs4
                          simp only [List.length_cons] at hr2 ⊢
                          have hdec' : utf8Decode (queryBytes s4) = some out' := by
                            rw [← hXq3]; exact hdec
                          have := ih s4 (by omega) out' hdec'
                          subst hout
                          simp only [List.length_cons]
                          omega
                        · rw [utf8Decode_lead_fail b (by omega)] at h
                          cases h
        · rw [queryBytes_raw c r hp hpc] at h
          rw [utf8Decode_utf8Bytes c.toNat (char_toNat_lt c) (queryBytes r)] at h
          cases hX : utf8Decode (queryBytes r) with
          | none => rw [hX] at h; cases h
          | some o =>
            rw [hX] at h
            simp only [Option.map_some', Option.some.injEq] at h
            have := ih r hr o hX
            rw [← h]
            simp only [List.length_cons]
            omega

/-- Decoding one query component never produces more characters than the
component has. -/
theorem decode_length (s : List Char) (out : List Char)
    (h : decodeValue s = some out) : out.length ≤ s.length :=
  decode_length_fuel s.length s (Nat.le_refl _) out h

theorem isUnreservedURI_ne (c : Char) (h : isUnreservedURI c = true) :
    c ≠ '+' ∧ c ≠ '%' ∧ c ≠ '#' ∧ c ≠ '&' := by
  refine ⟨?_, ?_, ?_, ?_⟩ <;> (rintro rfl; exact absurd h (by decide))

theorem queryBytes_flatMap_pct (bs : List Nat) (tail : List Char)
    (hb : ∀ b ∈ bs, b < 256) :
    queryBytes ((bs.flatMap pctByte) ++ tail) = bs ++ queryBytes tail := by
  induction bs with
  | nil => simp
  | cons b bs' ih =>
    have hb256 : b < 256 := hb b (by simp)
    have hd1 := hexDigit_spec (b / 16) (by omega)
    have hd2 := hexDigit_spec (b % 16) (by omega)
    have hhex : (isHexChar (hexDigit (b / 16)) && isHexChar (hexDigit (b % 16))) = true := by
      rw [hd1.1, hd2.1]; rfl
    have hshape : ((b :: bs').flatMap pctByte) ++ tail =
        '%' :: hexDigit (b / 16) :: hexDigit (b % 16) :: ((bs'.flatMap pctByte) ++ tail) := by
      simp [pctByte]
    rw [hshape, queryBytes_pct_valid _ _ _ hhex]
    rw [hd1.2.1, hd2.2.1]
    have hbv : 16 * (b / 16) + b % 16 = b := by omega
    rw [hbv, ih fun x hx => hb x (by simp [hx])]
    rfl

theorem decodeValue_encode (l : List Char) :
    decodeValue (encodeURIComponent l) = some l := by
  show utf8Decode (queryBytes (encodeURIComponent l)) = some l
  induction l with
  | nil => rfl
  | cons c l' ih =>
    by_cases hu : isUnreservedURI c
    · have hne := isUnreservedURI_ne c hu
      show utf8Decode (queryBytes ((if isUnreservedURI c then [c]
        else (utf8Bytes c.toNat).flatMap pctByte) ++ encodeURIComponent l')) = _
      rw [if_pos hu, List.cons_append, List.nil_append]
      rw [queryBytes_raw c _ hne.1 hne.2.1]
      rw [utf8Decode_utf8Bytes c.toNat (char_toNat_lt c), ih]
      simp [Char.ofNat_toNat]
    · show utf8Decode (queryBytes ((if isUnreservedURI c then [c]
        else (utf8Bytes c.toNat).flatMap pctByte) ++ encodeURIComponent l')) = _
      rw [if_neg hu]
      rw [queryBytes_flatMap_pct _ _ (utf8Bytes_lt256 c.toNat (char_toNat_lt c))]
      rw [utf8Decode_utf8Bytes c.toNat (char_toNat_lt c), ih]
      simp [Char.ofNat_toNat]

theorem mem_encodeURIComponent_safe (l : List Char) :
    ∀ c' ∈ encodeURIComponent l, c' ≠ '#' ∧ c' ≠ '&' := by
  induction l with
  | nil => simp [encodeURIComponent]
  | cons c l' ih =>
    intro c' hc'
    show c' ≠ '#' ∧ c' ≠ '&'
    have : c' ∈ (if isUnreservedURI c then [c]
        else (utf8Bytes c.toNat).flatMap pctByte) ++ encodeURIComponent l' := hc'
    rcases List.mem_append.mp this with hmem | hmem
    · by_cases hu : isUnreservedURI c
      · rw [if_pos hu] at hmem
        rcases List.mem_singleton.mp hmem with rfl
        have := isUnreservedURI_ne c' hu
        exact ⟨this.2.2.1, this.2.2.2⟩
      · rw [if_neg hu] at hmem
        rcases List.mem_flatMap.mp hmem with ⟨b, hbmem, hcb⟩
        have hb256 : b < 256 := utf8Bytes_lt256 c.toNat (char_toNat_lt c) b hbmem
        rw [show pctByte b = ['%', hexDigit (b / 16), hexDigit (b % 16)] from rfl] at hcb
        rcases List.mem_cons.mp hcb with rfl | hcb
        · exact ⟨by decide, by decide⟩
        rcases List.mem_cons.mp hcb with rfl | hcb
        · have := hexDigit_spec (b / 16) (by omega)
          exact ⟨this.2.2.1, this.2.2.2.1⟩
        rcases List.mem_cons.mp hcb with rfl | hcb
        · have := hexDigit_spec (b % 16) (by omega)
          exact ⟨this.2.2.1, this.2.2.2.1⟩
        · cases hcb
    · exact ih c' hmem

theorem data_append (s t : String) : (s ++ t).data = s.data ++ t.data := rfl

theorem pair_split (name t : List Char)
    (h : ∀ x ∈ name, (decide (x ≠ '=')) = true) :
    pairName (name ++ '=' :: t) = name ∧ pairValue (name ++ '=' :: t) = t := by
  constructor
  · show (name ++ '=' :: t).takeWhile _ = name
    rw [takeWhile_append_all _ name _ h, List.takeWhile_cons]
    simp
  · show ((name ++ '=' :: t).dropWhile _).drop 1 = t
    rw [dropWhile_append_all _ name _ h, List.dropWhile_cons]
    simp

theorem authUrl_data (k e : String) :
    (authUrlFor defaultServerUrl k e).data =
      "http://ahp.nuts.services/auth?token=".data ++
        (k.data ++ ("&agent_id=".data ++ encodeURIComponent e.data)) := by
  show (defaultServerUrl ++ "/auth?token=" ++ k ++ "&agent_id=" ++ encodeURIComponentStr e).data = _
  rw [data_append, data_append, data_append, data_append]
  simp only [List.append_assoc]
  rw [← List.append_assoc defaultServerUrl.data]
  rw [show defaultServerUrl.data ++ "/auth?token=".data =
    "http://ahp.nuts.services/auth?token=".data by decide]
  rfl

theorem authUrl_queryPart (k e : String) :
    queryPart (authUrlFor defaultServerUrl k e).data =
      "token=".data ++ (k.data.takeWhile (fun c => decide (c ≠ '#')) ++
        (if '#' ∈ k.data then []
         else "&agent_id=".data ++ encodeURIComponent e.data)) := by
  rw [authUrl_data]
  show ((("http://ahp.nuts.services/auth?token=".data ++
      (k.data ++ ("&agent_id=".data ++ encodeURIComponent e.data))).takeWhile
        (fun c => decide (c ≠ '#'))).dropWhile (fun c => decide (c ≠ '?'))).drop 1 = _
  have hpre : ∀ x ∈ "http://ahp.nuts.services/auth?token=".data,
      (decide (x ≠ '#')) = true := by decide
  rw [takeWhile_append_all _ _ _ hpre]
  have hx : (k.data ++ ("&agent_id=".data ++ encodeURIComponent e.data)).takeWhile
      (fun c => decide (c ≠ '#')) =
      k.data.takeWhile (fun c => decide (c ≠ '#')) ++
        (if '#' ∈ k.data then []
         else "&agent_id=".data ++ encodeURIComponent e.data) := by
    by_cases hk : '#' ∈ k.data
    · rw [if_pos hk, List.append_nil]
      exact takeWhile_append_stop _ _ _ ⟨'#', hk, by decide⟩
    · have hkall : ∀ x ∈ k.data, (decide (x ≠ '#')) = true := by
        intro x hxm
        simp only [decide_eq_true_eq]
        rintro rfl
        exact hk hxm
      rw [if_neg hk, takeWhile_append_all _ _ _ hkall]
      rw [takeWhile_all _ _ ?_]
      · rw [takeWhile_all _ _ hkall]
      · intro x hxm
        rcases List.mem_append.mp hxm with hm | hm
        · exact (by decide : ∀ y ∈ "&agent_id=".data, (decide (y ≠ '#')) = true) x hm
        · have := (mem_encodeURIComponent_safe e.data x hm).1
          simp only [decide_eq_true_eq]
          exact this
  rw [hx]
  rw [show "http://ahp.nuts.services/auth?token=".data =
    "http://ahp.nuts.services/auth".data ++ '?' :: "token=".data by decide]
  rw [List.append_assoc]
  rw [dropWhile_append_all _ _ _ (by decide :
    ∀ x ∈ "http://ahp.nuts.services/auth".data, (decide (x ≠ '?')) = true)]
  rw [List.cons_append, List.dropWhile_cons_of_neg (by decide)]
  rfl

/-- What the receiver reads as the `token` parameter of the broker's auth URL:
the pre-shared key truncated at its first `#` and first `&`, then decoded. -/
theorem receivedParamL_token (k e : String) :
    receivedParamL (authUrlFor defaultServerUrl k e).data "token".data =
      decodeValue ((k.data.takeWhile (fun c => decide (c ≠ '#'))).takeWhile
        (fun c => decide (c ≠ '&'))) := by
  unfold receivedParamL
  rw [authUrl_queryPart]
  set kh := k.data.takeWhile (fun c => decide (c ≠ '#')) with hkh
  set rest := (if '#' ∈ k.data then []
    else "&agent_id=".data ++ encodeURIComponent e.data) with hrest
  set t := kh.takeWhile (fun c => decide (c ≠ '&')) with ht
  have hF : ("token=".data ++ (kh ++ rest)).takeWhile (fun c => decide (c ≠ '&')) =
      "token=".data ++ t := by
    rw [takeWhile_append_all _ _ _ (by decide :
      ∀ x ∈ "token=".data, (decide (x ≠ '&')) = true)]
    by_cases hamp : '&' ∈ kh
    · rw [takeWhile_append_stop _ _ _ ⟨'&', hamp, by decide⟩]
    · have hkall : ∀ x ∈ kh, (decide (x ≠ '&')) = true := by
        intro x hxm
        simp only [decide_eq_true_eq]
        rintro rfl
        exact hamp hxm
      rw [takeWhile_append_all _ _ _ hkall, ht, takeWhile_all _ _ hkall]
      rw [hrest]
      by_cases hk : '#' ∈ k.data
      · rw [if_pos hk]
        simp
      · rw [if_neg hk]
        rw [show "&agent_id=".data ++ encodeURIComponent e.data =
          '&' :: ("agent_id=".data ++ encodeURIComponent e.data) from rfl]
        rw [List.takeWhile_cons_of_neg (by decide)]
        simp
  rcases splitOnAmp_head ("token=".data ++ (kh ++ rest)) with ⟨ss, hss⟩
  rw [hss, hF]
  have hshape : "token=".data ++ t = "token".data ++ '=' :: t := by
    rw [show "token=".data = "token".data ++ ['='] from by decide, List.append_assoc]
    rfl
  have hpair := pair_split "token".data t (by decide)
  rw [hshape]
  rw [List.find?_cons_of_pos _ (by
    show (pairName ("token".data ++ '=' :: t) == "token".data) = true
    rw [hpair.1]
    exact beq_self_eq_true _)]
  dsimp only
  rw [hpair.2]

/-- When the key is free of `&` and `#`, the receiver reads the `agent_id`
parameter as the percent-decoding of the encoded email. -/
theorem receivedParamL_agent (k e : String) (hka : '&' ∉ k.data) (hkh : '#' ∉ k.data) :
    receivedParamL (authUrlFor defaultServerUrl k e).data "agent_id".data =
      decodeValue (encodeURIComponent e.data) := by
  unfold receivedParamL
  rw [authUrl_queryPart, if_neg hkh]
  have hA : k.data.takeWhile (fun c => decide (c ≠ '#')) = k.data := by
    refine takeWhile_all _ _ ?_
    intro x hxm
    simp only [decide_eq_true_eq]
    rintro rfl
    exact hkh hxm
  rw [hA]
  have hre : "token=".data ++ (k.data ++ ("&agent_id=".data ++ encodeURIComponent e.data)) =
      ("token=".data ++ k.data) ++ '&' :: ("agent_id=".data ++ encodeURIComponent e.data) := by
    rw [show "&agent_id=".data ++ encodeURIComponent e.data =
      '&' :: ("agent_id=".data ++ encodeURIComponent e.data) from rfl]
    simp [List.append_assoc]
  rw [hre]
  rw [splitOnAmp_append _ _ (by
    intro x hxm
    rcases List.mem_append.mp hxm with hm | hm
    · exact (by decide : ∀ y ∈ "token=".data, y ≠ '&') x hm
    · intro heq
      subst heq
      exact hka hm)]
  rw [splitOnAmp_no_amp ("agent_id=".data ++ encodeURIComponent e.data) (by
    intro x hxm
    rcases List.mem_append.mp hxm with hm | hm
    · exact (by decide : ∀ y ∈ "agent_id=".data, y ≠ '&') x hm
    · exact (mem_encodeURIComponent_safe e.data x hm).2)]
  have hshape1 : "token=".data ++ k.data = "token".data ++ '=' :: k.data := by
    rw [show "token=".data = "token".data ++ ['='] from by decide, List.append_assoc]
    rfl
  have hshape2 : "agent_id=".data ++ encodeURIComponent e.data =
      "agent_id".data ++ '=' :: encodeURIComponent e.data := by
    rw [show "agent_id=".data = "agent_id".data ++ ['='] from by decide, List.append_assoc]
    rfl
  rw [hshape1, hshape2]
  have hpair1 := pair_split "token".data k.data (by decide)
  have hpair2 := pair_split "agent_id".data (encodeURIComponent e.data) (by decide)
  rw [List.find?_cons_of_neg _ (by
    show ¬(pairName ("token".data ++ '=' :: k.data) == "agent_id".data) = true
    rw [hpair1.1]
    decide)]
  rw [List.find?_cons_of_pos _ (by
    show (pairName ("agent_id".data ++ '=' :: encodeURIComponent e.data) ==
      "agent_id".data) = true
    rw [hpair2.1]
    exact beq_self_eq_true _)]
  dsimp only
  rw [hpair2.2]

/-- C10 (amended).  In the auth URL the broker builds, the email is
percent-encoded but the pre-shared key is interpolated verbatim.
Consequently the `token` parameter the auth endpoint receives equals the
configured key exactly when the key contains no `&` and no `#` and is a fixed
point of plus/percent decoding; and the `agent_id` parameter round-trips for
every email whenever the key contains no `&` and no `#`. -/
theorem authUrl_token_roundtrip (k e : String) :
    (receivedParam (authUrlFor defaultServerUrl k e) "token" = some k ↔
      ('&' ∉ k.data ∧ '#' ∉ k.data ∧ decodeValue k.data = some k.data)) ∧
    ('&' ∉ k.data → '#' ∉ k.data →
      receivedParam (authUrlFor defaultServerUrl k e) "agent_id" = some e) := by
  constructor
  · constructor
    · intro h
      unfold receivedParam at h
      rw [receivedParamL_token k e] at h
      cases hd : decodeValue ((k.data.takeWhile (fun c => decide (c ≠ '#'))).takeWhile
          (fun c => decide (c ≠ '&'))) with
      | none => rw [hd] at h; cases h
      | some l =>
        rw [hd] at h
        simp only [Option.map_some', Option.some.injEq] at h
        have hlk : l = k.data := congrArg String.data h
        have hlen := decode_length _ _ hd
        have h1 := takeWhile_length_le (fun c => decide (c ≠ '&'))
          (k.data.takeWhile (fun c => decide (c ≠ '#')))
        have h2 := takeWhile_length_le (fun c => decide (c ≠ '#')) k.data
        rw [hlk] at hlen
        have hA : k.data.takeWhile (fun c => decide (c ≠ '#')) = k.data :=
          takeWhile_eq_of_length _ _ (by omega)
        rw [hA] at hd hlen h1
        have hB : k.data.takeWhile (fun c => decide (c ≠ '&')) = k.data :=
          takeWhile_eq_of_length _ _ (by omega)
        rw [hB] at hd
        rw [hlk] at hd
        refine ⟨?_, ?_, hd⟩
        · intro hin
          have := mem_of_takeWhile_eq_self _ _ hB '&' hin
          simp at this
        · intro hin
          have := mem_of_takeWhile_eq_self _ _ hA '#' hin
          simp at this
    · rintro ⟨ha, hh, hfix⟩
      unfold receivedParam
      rw [receivedParamL_token k e]
      have hA : k.data.takeWhile (fun c => decide (c ≠ '#')) = k.data := by
        refine takeWhile_all _ _ ?_
        intro x hxm
        simp only [decide_eq_true_eq]
        rintro rfl
        exact hh hxm
      have hB : k.data.takeWhile (fun c => decide (c ≠ '&')) = k.data := by
        refine takeWhile_all _ _ ?_
        intro x hxm
        simp only [decide_eq_true_eq]
        rintro rfl
        exact ha hxm
      rw [hA, hB, hfix]
      rfl
  · intro ha hh
    unfold receivedParam
    rw [receivedParamL_agent k e ha hh, decodeValue_encode]
    rfl

/-- C10 counterexample.  The key `a=b` contains a URL-reserved character the
claim itself lists (`=`), yet the received token parameter still equals the
key — so "round-trips iff no URL-reserved characters" is false as stated.
Moreover a key containing `&` injects its own `agent_id`, so the agent
identity does not round-trip for every configuration. -/
theorem authUrl_reserved_char_counterexample :
    receivedParam (authUrlFor defaultServerUrl "a=b" "e") "token" = some "a=b" ∧
    '=' ∈ "a=b".data ∧
    receivedParam (authUrlFor defaultServerUrl "x&agent_id=evil" "a@b.com") "agent_id" =
      some "evil" := by
  refine ⟨?_, ?_, ?_⟩ <;> decide

/-- Concrete run of the C10 theorem: the benign key `k1` round-trips, and the
email `a@b.com` round-trips through its percent-encoding. -/
theorem authUrl_token_roundtrip_witness :
    receivedParam (authUrlFor defaultServerUrl "k1" "a@b.com") "token" = some "k1" ∧
    receivedParam (authUrlFor defaultServerUrl "k1" "a@b.com") "agent_id" = some "a@b.com" :=
  ⟨(authUrl_token_roundtrip "k1" "a@b.com").1.mpr (by decide),
   (authUrl_token_roundtrip "k1" "a@b.com").2 (by decide) (by decide)⟩

end AhpBridge
